import Mathlib

/-!
Verification development for the repository-content extraction pipeline
(`src/ai/flows/get-repo-content.ts`).

The pipeline is a single server-side function `getRepoContent` that chains
four upstream HTTP fetches (repository metadata, branch metadata, recursive
tree listing, optional `package.json` blob) inside one try/catch block,
filters binary-extension paths out of the tree, base64-decodes the fetched
blob, and on any thrown error returns a sentinel result.

We embed the function shallowly: the network is an explicit environment
assigning an outcome to each fetch the code can issue; thrown JavaScript
exceptions are `Except.error`; the outer catch is the total wrapper
`getRepoContent`.  Outbound calls are recorded in a trace so that claims
about which calls are issued (and with which headers) can be stated.
Strings fetched as blob bodies are decoded at the byte level: a UTF-8
string is represented by its byte sequence (`List Nat`, each < 256), so the
"interpret bytes as UTF-8" step of the source is the identity on this
representation.
-/

namespace RepoRefine

/-- Base64 alphabet, index 0..63, as used by Node's `Buffer.from(_, 'base64')`. -/
def b64Alphabet : List Char :=
  ['A', 'B', 'C', 'D', 'E', 'F', 'G', 'H', 'I', 'J', 'K', 'L', 'M',
   'N', 'O', 'P', 'Q', 'R', 'S', 'T', 'U', 'V', 'W', 'X', 'Y', 'Z',
   'a', 'b', 'c', 'd', 'e', 'f', 'g', 'h', 'i', 'j', 'k', 'l', 'm',
   'n', 'o', 'p', 'q', 'r', 's', 't', 'u', 'v', 'w', 'x', 'y', 'z',
   '0', '1', '2', '3', '4', '5', '6', '7', '8', '9', '+', '/']

/-- Character of a 6-bit value. -/
def b64Char (n : Nat) : Char := b64Alphabet.getD n '?'

/-- Index of a base64 character in the alphabet (none for '=', whitespace, etc.). -/
def b64Index (c : Char) : Option Nat := b64Alphabet.findIdx? (fun x => x = c)

/-- Standard base64 encoding of a byte sequence (bytes are Nat < 256),
including '=' padding; this models the transport encoding the upstream API
applies to blob bodies. -/
def b64EncodeBytes : List Nat → List Char
  | [] => []
  | [a] => [b64Char (a / 4), b64Char (a % 4 * 16), '=', '=']
  | [a, b] => [b64Char (a / 4), b64Char (a % 4 * 16 + b / 16), b64Char (b % 16 * 4), '=']
  | a :: b :: d :: rest =>
      b64Char (a / 4) :: b64Char (a % 4 * 16 + b / 16) ::
      b64Char (b % 16 * 4 + d / 64) :: b64Char (d % 64) :: b64EncodeBytes rest

/-- Base64 decoding to bytes: four characters at a time, honouring '='
padding in the final quantum; `none` on input that is not well-formed
base64. -/
def b64DecodeChars : List Char → Option (List Nat)
  | [] => some []
  | c1 :: c2 :: c3 :: c4 :: rest =>
      match b64Index c1, b64Index c2 with
      | some i1, some i2 =>
          if c3 = '=' then
            if c4 = '=' ∧ rest = [] then some [i1 * 4 + i2 / 16] else none
          else
            match b64Index c3 with
            | some i3 =>
                if c4 = '=' then
                  if rest = [] then some [i1 * 4 + i2 / 16, i2 % 16 * 16 + i3 / 4] else none
                else
                  match b64Index c4 with
                  | some i4 =>
                      (b64DecodeChars rest).map
                        (fun t => (i1 * 4 + i2 / 16) :: (i2 % 16 * 16 + i3 / 4) ::
                                  (i3 % 4 * 64 + i4) :: t)
                  | none => none
            | none => none
      | _, _ => none
  | _ => none

/-- Embedding of the source helper
`decodeBase64(encoded) = Buffer.from(encoded, 'base64').toString('utf-8')`:
base64 text to raw bytes, then interpret as UTF-8 (identity in our byte
representation).  Node's decoder never throws; input that is not valid
base64 is modelled as decoding to the empty byte sequence (its exact
garbage output is irrelevant to every claim). -/
def decodeBase64 (encoded : String) : List Nat :=
  (b64DecodeChars encoded.data).getD []

theorem b64Index_b64Char : ∀ n, n < 64 → b64Index (b64Char n) = some n := by decide

theorem b64Char_ne_pad : ∀ n, n < 64 → b64Char n ≠ '=' := by decide

theorem b64_roundtrip :
    ∀ bs : List Nat, (∀ x ∈ bs, x < 256) → b64DecodeChars (b64EncodeBytes bs) = some bs
  | [], _ => by simp [b64EncodeBytes, b64DecodeChars]
  | [a], h => by
      have ha : a < 256 := h a (by simp)
      have h1 : a / 4 < 64 := by omega
      have h2 : a % 4 * 16 < 64 := by omega
      simp only [b64EncodeBytes, b64DecodeChars, b64Index_b64Char _ h1, b64Index_b64Char _ h2,
        if_true, and_self, if_pos]
      simp only [Option.some.injEq, List.cons.injEq, and_true]
      omega
  | [a, b], h => by
      have ha : a < 256 := h a (by simp)
      have hb : b < 256 := h b (by simp)
      have h1 : a / 4 < 64 := by omega
      have h2 : a % 4 * 16 + b / 16 < 64 := by omega
      have h3 : b % 16 * 4 < 64 := by omega
      have hc3 : (b64Char (b % 16 * 4) = '=') = False := by
        simpa using b64Char_ne_pad _ h3
      simp only [b64EncodeBytes, b64DecodeChars, b64Index_b64Char _ h1, b64Index_b64Char _ h2,
        b64Index_b64Char _ h3, hc3, if_false, if_true]
      simp only [Option.some.injEq, List.cons.injEq, and_true]
      omega
  | a :: b :: d :: e :: rest, h => by
      have ha : a < 256 := h a (by simp)
      have hb : b < 256 := h b (by simp)
      have hd : d < 256 := h d (by simp)
      have h1 : a / 4 < 64 := by omega
      have h2 : a % 4 * 16 + b / 16 < 64 := by omega
      have h3 : b % 16 * 4 + d / 64 < 64 := by omega
      have h4 : d % 64 < 64 := by omega
      have hc3 : (b64Char (b % 16 * 4 + d / 64) = '=') = False := by
        simpa using b64Char_ne_pad _ h3
      have hc4 : (b64Char (d % 64) = '=') = False := by
        simpa using b64Char_ne_pad _ h4
      have ih := b64_roundtrip (e :: rest) (fun x hx => h x (by simp_all))
      simp only [b64EncodeBytes, b64DecodeChars, b64Index_b64Char _ h1, b64Index_b64Char _ h2,
        b64Index_b64Char _ h3, b64Index_b64Char _ h4, hc3, hc4, if_false, if_true, ih]
      simp only [Option.map_some', Option.some.injEq, List.cons.injEq]
      refine ⟨by omega, by omega, by omega, trivial⟩
  | [a, b, d], h => by
      have ha : a < 256 := h a (by simp)
      have hb : b < 256 := h b (by simp)
      have hd : d < 256 := h d (by simp)
      have h1 : a / 4 < 64 := by omega
      have h2 : a % 4 * 16 + b / 16 < 64 := by omega
      have h3 : b % 16 * 4 + d / 64 < 64 := by omega
      have h4 : d % 64 < 64 := by omega
      have hc3 : (b64Char (b % 16 * 4 + d / 64) = '=') = False := by
        simpa using b64Char_ne_pad _ h3
      have hc4 : (b64Char (d % 64) = '=') = False := by
        simpa using b64Char_ne_pad _ h4
      simp only [b64EncodeBytes, b64DecodeChars, b64Index_b64Char _ h1, b64Index_b64Char _ h2,
        b64Index_b64Char _ h3, b64Index_b64Char _ h4, hc3, hc4, if_false, if_true]
      simp only [Option.map_some', Option.some.injEq, List.cons.injEq, and_true]
      omega

/-- Input of `getRepoContent` (`RepoContentInputSchema`). -/
structure RepoContentInput where
  userName : String
  repoName : String
deriving DecidableEq

/-- Output of `getRepoContent` (`RepoContentOutputSchema`): the path list and
the optional decoded `package.json` body (as UTF-8 bytes). -/
structure RepoContentOutput where
  tree : List String
  packageJson : Option (List Nat)
deriving DecidableEq

/-- Payload fields of the repository-metadata response that the code reads.
A missing `default_branch` is only interpolated into the next URL by the
source (JavaScript renders it as the string "undefined"), so it is modelled
as a plain string. -/
structure RepoPayload where
  default_branch : String
deriving DecidableEq

/-- Payload of the branch-metadata response.  The source reads the nested
chain `branchData.commit.commit.tree.sha`; `none` models a payload where an
intermediate object of that chain is missing, which makes the JavaScript
property access throw a TypeError. -/
structure BranchPayload where
  commitTreeSha : Option String
deriving DecidableEq

/-- One entry of the recursive tree listing; the source reads `node.path`
and `node.url` (absent `url` modelled as `none`). -/
structure TreeNode where
  path : String
  url : Option String
deriving DecidableEq

/-- Payload of the tree response.  `none` for the `tree` field models a
payload without a `tree` array, on which `.map` throws a TypeError. -/
structure TreePayload where
  tree : Option (List TreeNode)
deriving DecidableEq

/-- Payload of a blob-content response; the source reads
`packageJsonData.content` (truthiness-tested, so the empty string is
treated like an absent field). -/
structure FilePayload where
  content : Option String
deriving DecidableEq

/-- Outcome of one upstream fetch, as observable by the code:
a rejected promise (`throw`), a response with `ok = false` (`notOk`),
an ok response whose `.json()` throws (`okMalformed`), or an ok response
with a parsed payload (`okJson`). -/
inductive FetchResult (α : Type) where
  | throwErr (msg : String)
  | notOk
  | okMalformed
  | okJson (payload : α)

/-- Environment: the upstream API's behaviour for one invocation, plus
whether an authentication credential would have been available to the
process.  File-content outcomes are keyed by the fetched URL. -/
structure Env where
  token : Option String
  repoResp : FetchResult RepoPayload
  branchResp : FetchResult BranchPayload
  treeResp : FetchResult TreePayload
  fileResp : String → FetchResult FilePayload

/-- Which fetch expression of the source issued an outbound call. -/
inductive CallKind where
  | repo
  | branch
  | tree
  | file
deriving DecidableEq

/-- One outbound HTTP call as issued by the source: its URL and the
`Authorization` header value, if any, attached to it.  The source calls
`fetch(url)` with no init object, so no call it issues carries a header. -/
structure Call where
  kind : CallKind
  url : String
  authHeader : Option String
deriving DecidableEq

def repoUrl (inp : RepoContentInput) : String :=
  "https://api.github.com/repos/" ++ inp.userName ++ "/" ++ inp.repoName

def branchUrl (inp : RepoContentInput) (branch : String) : String :=
  repoUrl inp ++ "/branches/" ++ branch

def treeUrl (inp : RepoContentInput) (sha : String) : String :=
  repoUrl inp ++ "/git/trees/" ++ sha ++ "?recursive=1"

/-- Extensions of the binary-asset filter regex
`/\.(jpg|jpeg|png|gif|bmp|ico|svg|webp|pdf|zip|gz|rar|woff|woff2|eot|ttf|otf)$/i`. -/
def binaryExts : List String :=
  ["jpg", "jpeg", "png", "gif", "bmp", "ico", "svg", "webp", "pdf", "zip", "gz",
   "rar", "woff", "woff2", "eot", "ttf", "otf"]

/-- ASCII lowercasing of one character, as the regex's `i` flag applies to
the ASCII extension alternatives. -/
def lowerChar (c : Char) : Char :=
  if 65 ≤ c.toNat ∧ c.toNat ≤ 90 then Char.ofNat (c.toNat + 32) else c

/-- Whether `path.match(regex)` is non-null: the path ends,
case-insensitively, with a dot followed by one of the listed extensions. -/
def isBinaryPath (p : String) : Bool :=
  binaryExts.any (fun e => (("." ++ e).data).isSuffixOf (p.data.map lowerChar))

/-- Embeds `treeData.tree.map(node => node.path).filter(path => !path.match(...))`. -/
def fileTreeOf (nodes : List TreeNode) : List String :=
  (nodes.map (fun n => n.path)).filter (fun p => !(isBinaryPath p))

/-- Fixed key-file pattern set of the source: the only path the fetch stage
matches exactly is `package.json`. -/
def keyFilePatterns : List String := ["package.json"]

/-- Steps 1-3 of the source (repository metadata, branch metadata, recursive
tree listing), with every thrown JavaScript error as `Except.error` and the
issued calls as a trace.  Error strings follow the source's
`throw new Error(...)` messages; payload-shape TypeErrors and JSON parse
errors carry fixed descriptive strings (only their being thrown matters). -/
def resolveTree (inp : RepoContentInput) (env : Env) :
    Except String (List TreeNode) × List Call :=
  let c1 : Call := ⟨.repo, repoUrl inp, none⟩
  match env.repoResp with
  | .throwErr m => (.error m, [c1])
  | .notOk =>
      (.error ("Failed to fetch repo details for " ++ inp.userName ++ "/" ++ inp.repoName), [c1])
  | .okMalformed => (.error "Unexpected end of JSON input", [c1])
  | .okJson repoData =>
      let c2 : Call := ⟨.branch, branchUrl inp repoData.default_branch, none⟩
      match env.branchResp with
      | .throwErr m => (.error m, [c1, c2])
      | .notOk =>
          (.error ("Failed to fetch branch details for " ++ inp.userName ++ "/" ++ inp.repoName),
           [c1, c2])
      | .okMalformed => (.error "Unexpected end of JSON input", [c1, c2])
      | .okJson branchData =>
          match branchData.commitTreeSha with
          | none => (.error "TypeError: cannot read properties of undefined", [c1, c2])
          | some sha =>
              let c3 : Call := ⟨.tree, treeUrl inp sha, none⟩
              match env.treeResp with
              | .throwErr m => (.error m, [c1, c2, c3])
              | .notOk =>
                  (.error ("Failed to fetch file tree for " ++ inp.userName ++ "/" ++ inp.repoName),
                   [c1, c2, c3])
              | .okMalformed => (.error "Unexpected end of JSON input", [c1, c2, c3])
              | .okJson treeData =>
                  match treeData.tree with
                  | none => (.error "TypeError: cannot read properties of undefined", [c1, c2, c3])
                  | some nodes => (.ok nodes, [c1, c2, c3])

/-- Step 4 of the source: find the first tree node whose path is exactly
`package.json`; if it exists and its `url` is truthy, fetch it; an ok
response with a truthy `content` field is base64-decoded.  A non-ok
response, or a payload without truthy content, silently yields no content;
a rejected fetch or a `.json()` parse error is a thrown error. -/
def fetchKeyFiles (env : Env) (nodes : List TreeNode) :
    Except String (Option (List Nat)) × List Call :=
  match nodes.find? (fun n => n.path = "package.json") with
  | none => (.ok none, [])
  | some node =>
      match node.url with
      | none => (.ok none, [])
      | some u =>
          if u = "" then (.ok none, [])
          else
            let c : Call := ⟨.file, u, none⟩
            match env.fileResp u with
            | .throwErr m => (.error m, [c])
            | .notOk => (.ok none, [c])
            | .okMalformed => (.error "Unexpected end of JSON input", [c])
            | .okJson fileData =>
                match fileData.content with
                | none => (.ok none, [c])
                | some s =>
                    if s = "" then (.ok none, [c])
                    else (.ok (some (decodeBase64 s)), [c])

/-- Body of `getRepoContent` before the catch: the four-step pipeline;
any thrown error is an `Except.error`. -/
def getRepoContentRun (inp : RepoContentInput) (env : Env) :
    Except String RepoContentOutput × List Call :=
  match resolveTree inp env with
  | (.error m, cs) => (.error m, cs)
  | (.ok nodes, cs) =>
      match fetchKeyFiles env nodes with
      | (.error m, cs2) => (.error m, cs ++ cs2)
      | (.ok pkg, cs2) => (.ok ⟨fileTreeOf nodes, pkg⟩, cs ++ cs2)

/-- Sentinel result returned by the catch block:
`{ tree: ['Error fetching repository structure.'] }`. -/
def errorSentinel : RepoContentOutput :=
  ⟨["Error fetching repository structure."], none⟩

/-- Embeds the whole of `getRepoContent`: the body wrapped in the
try/catch that maps every thrown error to the sentinel result.  The second
component is the trace of outbound calls issued. -/
def getRepoContent (inp : RepoContentInput) (env : Env) :
    RepoContentOutput × List Call :=
  match getRepoContentRun inp env with
  | (.ok o, cs) => (o, cs)
  | (.error _, cs) => (errorSentinel, cs)

/-- Number of remote listing entries, read off the environment's tree
response (0 when no listing was available). -/
def listingSize (env : Env) : Nat :=
  match env.treeResp with
  | .okJson p => (p.tree.getD []).length
  | _ => 0

/-- Number of per-file content fetches in a trace. -/
def fileFetchCount (inp : RepoContentInput) (env : Env) : Nat :=
  ((getRepoContent inp env).2.filter (fun c => c.kind == CallKind.file)).length

/-- Number of listed nodes matching the key-file pattern set that carry a
content URL (the "pattern-matched blob nodes" of the spec). -/
def matchedNodeCount (nodes : List TreeNode) : Nat :=
  (nodes.filter (fun n => decide (n.path ∈ keyFilePatterns) && n.url.isSome)).length

theorem resolveTree_cases (inp : RepoContentInput) (env : Env) :
    (∃ m, (resolveTree inp env).1 = Except.error m) ∨
    (∃ r sha nodes,
      env.repoResp = FetchResult.okJson r ∧
      env.branchResp = FetchResult.okJson ⟨some sha⟩ ∧
      env.treeResp = FetchResult.okJson ⟨some nodes⟩ ∧
      resolveTree inp env =
        (Except.ok nodes,
         [⟨CallKind.repo, repoUrl inp, none⟩,
          ⟨CallKind.branch, branchUrl inp r.default_branch, none⟩,
          ⟨CallKind.tree, treeUrl inp sha, none⟩])) := by
  rcases env with ⟨tok, rr, br, tr, fr⟩
  cases rr with
  | throwErr m => exact Or.inl ⟨m, rfl⟩
  | notOk => exact Or.inl ⟨_, rfl⟩
  | okMalformed => exact Or.inl ⟨_, rfl⟩
  | okJson r =>
      cases br with
      | throwErr m => exact Or.inl ⟨m, rfl⟩
      | notOk => exact Or.inl ⟨_, rfl⟩
      | okMalformed => exact Or.inl ⟨_, rfl⟩
      | okJson b =>
          obtain ⟨s?⟩ := b
          cases s? with
          | none => exact Or.inl ⟨_, rfl⟩
          | some sha =>
              cases tr with
              | throwErr m => exact Or.inl ⟨m, rfl⟩
              | notOk => exact Or.inl ⟨_, rfl⟩
              | okMalformed => exact Or.inl ⟨_, rfl⟩
              | okJson t =>
                  obtain ⟨t?⟩ := t
                  cases t? with
                  | none => exact Or.inl ⟨_, rfl⟩
                  | some nodes => exact Or.inr ⟨r, sha, nodes, rfl, rfl, rfl, rfl⟩

theorem resolveTree_calls (inp : RepoContentInput) (env : Env) :
    ∀ c ∈ (resolveTree inp env).2, c.authHeader = none ∧ c.kind ≠ CallKind.file := by
  rcases env with ⟨tok, rr, br, tr, fr⟩
  cases rr <;> try (cases br) <;> try (rename_i b; obtain ⟨s?⟩ := b; cases s?) <;>
    try (cases tr) <;>
    try (rename_i t; obtain ⟨t?⟩ := t; cases t?)
  all_goals
    intro c hc
  all_goals
    dsimp only [resolveTree] at hc
  all_goals
    simp only [List.mem_cons, List.mem_singleton, List.not_mem_nil, or_false] at hc
  all_goals
    rcases hc with rfl | rfl | rfl <;> exact ⟨rfl, by simp⟩

theorem fetchKeyFiles_trace (env : Env) (nodes : List TreeNode) :
    (fetchKeyFiles env nodes).2 = [] ∨
    ∃ u, (fetchKeyFiles env nodes).2 = [⟨CallKind.file, u, none⟩] := by
  unfold fetchKeyFiles
  repeat' split
  all_goals first
    | exact Or.inl rfl
    | exact Or.inr ⟨_, rfl⟩

theorem fetchKeyFiles_some_find (env : Env) (nodes : List TreeNode) (c : List Nat)
    (h : (fetchKeyFiles env nodes).1 = Except.ok (some c)) :
    ∃ node, nodes.find? (fun n => n.path = "package.json") = some node := by
  unfold fetchKeyFiles at h
  split at h
  · simp at h
  · exact ⟨_, by assumption⟩

theorem run_ok_elim (inp : RepoContentInput) (env : Env) (o : RepoContentOutput)
    (cs : List Call) (h : getRepoContentRun inp env = (Except.ok o, cs)) :
    ∃ nodes cs1 pkg cs2,
      resolveTree inp env = (Except.ok nodes, cs1) ∧
      fetchKeyFiles env nodes = (Except.ok pkg, cs2) ∧
      o = ⟨fileTreeOf nodes, pkg⟩ ∧ cs = cs1 ++ cs2 := by
  unfold getRepoContentRun at h
  split at h
  · simp at h
  · rename_i nodes cs1 heq
    split at h
    · simp at h
    · rename_i pkg cs2 heq2
      obtain ⟨h1, h2⟩ := Prod.mk.injEq .. ▸ h
      exact ⟨nodes, cs1, pkg, cs2, heq, heq2, (Except.ok.injEq .. ▸ h1).symm, h2.symm⟩

theorem getRepoContent_of_run_ok (inp : RepoContentInput) (env : Env)
    (o : RepoContentOutput) (cs : List Call)
    (h : getRepoContentRun inp env = (Except.ok o, cs)) :
    getRepoContent inp env = (o, cs) := by
  unfold getRepoContent
  rw [h]

theorem getRepoContent_of_run_error (inp : RepoContentInput) (env : Env)
    (m : String) (cs : List Call)
    (h : getRepoContentRun inp env = (Except.error m, cs)) :
    getRepoContent inp env = (errorSentinel, cs) := by
  unfold getRepoContent
  rw [h]

/-- Whether every path of a list avoids the binary-asset extensions. -/
def nonBinary (l : List String) : Bool :=
  l.all (fun p => !(isBinaryPath p))

/-- Whether no call of a trace carries an Authorization header. -/
def noAuthHeaders (cs : List Call) : Bool :=
  cs.all (fun c => c.authHeader.isNone)

/-- Test input used by witnesses and counterexamples. -/
def inpW : RepoContentInput := ⟨"octo", "demo"⟩

/-- A small repository listing: a key file, a source file, a binary asset. -/
def nodesOk : List TreeNode :=
  [⟨"package.json", some "u1"⟩, ⟨"src/index.ts", some "u2"⟩, ⟨"logo.png", some "u3"⟩]

/-- Upstream behaviour where every step succeeds; the blob body "aGk=" is
the base64 encoding of the two UTF-8 bytes of "hi". -/
def envOk : Env :=
  ⟨none, .okJson ⟨"main"⟩, .okJson ⟨some "sha1"⟩, .okJson ⟨some nodesOk⟩,
   fun _ => .okJson ⟨some "aGk="⟩⟩

/-- Upstream behaviour where the initial repository lookup is not ok. -/
def envNotFound : Env := ⟨none, .notOk, .notOk, .notOk, fun _ => .notOk⟩

/-- Resolution succeeds but the key-file fetch rejects (transport error). -/
def envFileThrow : Env :=
  ⟨none, .okJson ⟨"main"⟩, .okJson ⟨some "sha1"⟩, .okJson ⟨some nodesOk⟩,
   fun _ => .throwErr "network error"⟩

/-- Resolution succeeds but the key-file fetch returns a non-ok status. -/
def envFileNotOk : Env :=
  ⟨none, .okJson ⟨"main"⟩, .okJson ⟨some "sha1"⟩, .okJson ⟨some nodesOk⟩,
   fun _ => .notOk⟩

/-- A listing holding exactly one node, a binary asset. -/
def envPng : Env :=
  ⟨none, .okJson ⟨"main"⟩, .okJson ⟨some "sha1"⟩, .okJson ⟨some [⟨"a.png", none⟩]⟩,
   fun _ => .notOk⟩

/-- A listing with two nodes matching the key-file pattern set. -/
def nodesTwoPkg : List TreeNode :=
  [⟨"package.json", some "u1"⟩, ⟨"package.json", some "u2"⟩]

/-- Successful upstream behaviour over the two-match listing. -/
def envTwoPkg : Env :=
  ⟨none, .okJson ⟨"main"⟩, .okJson ⟨some "sha1"⟩, .okJson ⟨some nodesTwoPkg⟩,
   fun _ => .okJson ⟨some "aGk="⟩⟩

/-- Successful upstream behaviour with an authentication credential
available to the process. -/
def envTok : Env :=
  ⟨some "tok", .okJson ⟨"main"⟩, .okJson ⟨some "sha1"⟩, .okJson ⟨some nodesOk⟩,
   fun _ => .okJson ⟨some "aGk="⟩⟩

theorem getRepoContent_trace (inp : RepoContentInput) (env : Env) :
    (getRepoContent inp env).2 = (getRepoContentRun inp env).2 := by
  unfold getRepoContent
  rcases h : getRepoContentRun inp env with ⟨res, cs⟩
  cases res <;> rfl

theorem run_isOk_elim (inp : RepoContentInput) (env : Env)
    (h : (getRepoContentRun inp env).1.isOk = true) :
    ∃ o cs, getRepoContentRun inp env = (Except.ok o, cs) := by
  rcases hrun : getRepoContentRun inp env with ⟨res, cs⟩
  cases res with
  | error m => rw [hrun] at h; simp [Except.isOk, Except.toBool] at h
  | ok o => exact ⟨o, cs, rfl⟩

theorem result_tree_eq (inp : RepoContentInput) (env : Env) (nodes : List TreeNode)
    (hok : (getRepoContentRun inp env).1.isOk = true)
    (htree : env.treeResp = FetchResult.okJson ⟨some nodes⟩) :
    (getRepoContent inp env).1.tree = fileTreeOf nodes := by
  obtain ⟨o, cs, hrun⟩ := run_isOk_elim inp env hok
  rw [getRepoContent_of_run_ok inp env o cs hrun]
  obtain ⟨nodes', cs1, pkg, cs2, hres, hfk, ho, -⟩ := run_ok_elim inp env o cs hrun
  rcases resolveTree_cases inp env with ⟨m, hm⟩ | ⟨r, sha, nodes'', -, -, htree2, hres2⟩
  · rw [hres] at hm; simp at hm
  · rw [hres] at hres2
    simp only [Prod.mk.injEq, Except.ok.injEq] at hres2
    obtain ⟨rfl, -⟩ := hres2
    rw [htree] at htree2
    simp only [FetchResult.okJson.injEq, TreePayload.mk.injEq, Option.some.injEq] at htree2
    subst htree2
    rw [ho]

/-- C5: for every UTF-8 string (represented by its byte sequence), decoding
the base64 encoding of it with the pipeline's `decodeBase64` (base64 to raw
bytes, then interpret as UTF-8 — the identity on the byte representation)
yields exactly the original: decode after encode is the identity. -/
theorem claim5_decode_roundtrip (bs : List Nat) (h : ∀ x ∈ bs, x < 256) :
    decodeBase64 (String.mk (b64EncodeBytes bs)) = bs := by
  unfold decodeBase64
  show (b64DecodeChars (b64EncodeBytes bs)).getD [] = bs
  rw [b64_roundtrip bs h]
  rfl

/-- Witness for C5 at the byte sequence of the UTF-8 string "hi". -/
theorem claim5_witness : decodeBase64 (String.mk (b64EncodeBytes [104, 105])) = [104, 105] :=
  claim5_decode_roundtrip [104, 105] (by decide)

/-- C9: for every input and every upstream behaviour (thrown transport
errors and malformed payloads at any step included), `getRepoContent` never
propagates a thrown error: its body either succeeds and the success value
is returned as-is, or the result is exactly the sentinel
`errorSentinel = ⟨["Error fetching repository structure."], none⟩`
with no packageJson. -/
theorem claim9_never_throws (inp : RepoContentInput) (env : Env) :
    (getRepoContentRun inp env).1 = Except.ok (getRepoContent inp env).1 ∨
    (getRepoContent inp env).1 = errorSentinel := by
  unfold getRepoContent
  rcases h : getRepoContentRun inp env with ⟨res, cs⟩
  cases res with
  | ok o => left; rfl
  | error m => right; rfl

/-- C1 counterexample: the claim says the returned `tree` has one entry per
node of the remote listing; on a listing holding the single blob `a.png`
the code returns an empty tree (the binary-extension filter removed it),
so the tree length differs from the listing size. -/
theorem claim1_counterexample :
    (getRepoContent inpW envPng).1.tree.length ≠ listingSize envPng := by decide

/-- C1 amended: for every run whose body succeeds, the `tree` in the result
of `getRepoContent` has one entry per node of the remote listing whose path
survives the binary-extension filter (rather than per node of the full
listing), regardless of how many key files were successfully fetched. -/
theorem claim1_tree_length (inp : RepoContentInput) (env : Env) (nodes : List TreeNode)
    (hok : (getRepoContentRun inp env).1.isOk = true)
    (htree : env.treeResp = FetchResult.okJson ⟨some nodes⟩) :
    (getRepoContent inp env).1.tree.length = (fileTreeOf nodes).length := by
  rw [result_tree_eq inp env nodes hok htree]

/-- Witness for C1 (amended) on the all-success environment: the three-node
listing yields a two-path tree, `logo.png` filtered out. -/
theorem claim1_witness :
    (getRepoContent inpW envOk).1.tree.length = (fileTreeOf nodesOk).length :=
  claim1_tree_length inpW envOk nodesOk (by decide) rfl

/-- C6: for every run whose body succeeds, the paths of the returned `tree`
form a sublist of the listing's paths in their original order: the code
maps then filters, so relative order is preserved and no re-sorting is
performed. -/
theorem claim6_order_preserved (inp : RepoContentInput) (env : Env) (nodes : List TreeNode)
    (hok : (getRepoContentRun inp env).1.isOk = true)
    (htree : env.treeResp = FetchResult.okJson ⟨some nodes⟩) :
    (getRepoContent inp env).1.tree.Sublist (nodes.map TreeNode.path) := by
  rw [result_tree_eq inp env nodes hok htree]
  unfold fileTreeOf
  exact List.filter_sublist _

/-- Witness for C6 on the all-success environment. -/
theorem claim6_witness :
    (getRepoContent inpW envOk).1.tree.Sublist (nodesOk.map TreeNode.path) :=
  claim6_order_preserved inpW envOk nodesOk (by decide) rfl

/-- C10: for every run whose body succeeds, no path of the returned `tree`
ends (case-insensitively) with a dot and one of the binary-asset
extensions: `getRepoContent` silently filters all such entries out. -/
theorem claim10_no_binary_paths (inp : RepoContentInput) (env : Env)
    (hok : (getRepoContentRun inp env).1.isOk = true) :
    nonBinary (getRepoContent inp env).1.tree = true := by
  obtain ⟨o, cs, hrun⟩ := run_isOk_elim inp env hok
  rw [getRepoContent_of_run_ok inp env o cs hrun]
  obtain ⟨nodes, cs1, pkg, cs2, -, -, ho, -⟩ := run_ok_elim inp env o cs hrun
  subst ho
  show nonBinary (fileTreeOf nodes) = true
  unfold nonBinary fileTreeOf
  refine List.all_eq_true.mpr (fun p hp => ?_)
  have := (List.mem_filter.mp hp).2
  simpa using this

/-- Witness for C10 on the all-success environment (whose listing holds the
binary asset `logo.png`). -/
theorem claim10_witness : nonBinary (getRepoContent inpW envOk).1.tree = true :=
  claim10_no_binary_paths inpW envOk (by decide)

/-- C2 counterexample: the claim says a transport error on an individual
key-file fetch leaves the call successful with the full tree; in the code a
rejected fetch propagates to the outer catch, so the whole call returns the
sentinel and the listed path `package.json` is absent from `tree`. -/
theorem claim2_counterexample :
    "package.json" ∉ (getRepoContent inpW envFileThrow).1.tree ∧
    (getRepoContent inpW envFileThrow).1 = errorSentinel := by decide

/-- C2 amended: when tree resolution succeeds and a key-file node is
matched, only a non-ok response status — or an ok payload without truthy
content — is tolerated (call succeeds, full filtered tree, file dropped);
a rejected fetch or a malformed payload makes the whole call return the
sentinel instead. -/
theorem claim2_fetch_outcomes (inp : RepoContentInput) (env : Env) (r : RepoPayload)
    (sha : String) (nodes : List TreeNode) (node : TreeNode) (u : String)
    (hrepo : env.repoResp = FetchResult.okJson r)
    (hbranch : env.branchResp = FetchResult.okJson ⟨some sha⟩)
    (htree : env.treeResp = FetchResult.okJson ⟨some nodes⟩)
    (hfind : nodes.find? (fun n => n.path = "package.json") = some node)
    (hurl : node.url = some u) (hu : ¬ u = "") :
    (getRepoContent inp env).1 =
      (match env.fileResp u with
       | FetchResult.throwErr _ => errorSentinel
       | FetchResult.notOk => ⟨fileTreeOf nodes, none⟩
       | FetchResult.okMalformed => errorSentinel
       | FetchResult.okJson fd =>
           match fd.content with
           | none => ⟨fileTreeOf nodes, none⟩
           | some s =>
               if s = "" then ⟨fileTreeOf nodes, none⟩
               else ⟨fileTreeOf nodes, some (decodeBase64 s)⟩) := by
  have hres : resolveTree inp env =
      (Except.ok nodes,
       [⟨CallKind.repo, repoUrl inp, none⟩,
        ⟨CallKind.branch, branchUrl inp r.default_branch, none⟩,
        ⟨CallKind.tree, treeUrl inp sha, none⟩]) := by
    simp only [resolveTree, hrepo, hbranch, htree]
  cases hf : env.fileResp u with
  | throwErr m =>
      have hfk : fetchKeyFiles env nodes = (Except.error m, [⟨CallKind.file, u, none⟩]) := by
        simp only [fetchKeyFiles, hfind, hurl, hf, if_neg hu]
      simp only [getRepoContent, getRepoContentRun, hres, hfk]
  | notOk =>
      have hfk : fetchKeyFiles env nodes =
          (Except.ok none, [⟨CallKind.file, u, none⟩]) := by
        simp only [fetchKeyFiles, hfind, hurl, hf, if_neg hu]
      simp only [getRepoContent, getRepoContentRun, hres, hfk]
  | okMalformed =>
      have hfk : fetchKeyFiles env nodes =
          (Except.error "Unexpected end of JSON input", [⟨CallKind.file, u, none⟩]) := by
        simp only [fetchKeyFiles, hfind, hurl, hf, if_neg hu]
      simp only [getRepoContent, getRepoContentRun, hres, hfk]
  | okJson fd =>
      cases hc : fd.content with
      | none =>
          have hfk : fetchKeyFiles env nodes =
              (Except.ok none, [⟨CallKind.file, u, none⟩]) := by
            simp only [fetchKeyFiles, hfind, hurl, hf, hc, if_neg hu]
          simp only [getRepoContent, getRepoContentRun, hres, hfk, hc]
      | some s =>
          by_cases hs : s = ""
          · have hfk : fetchKeyFiles env nodes =
                (Except.ok none, [⟨CallKind.file, u, none⟩]) := by
              simp only [fetchKeyFiles, hfind, hurl, hf, hc, if_neg hu, if_pos hs]
            simp only [getRepoContent, getRepoContentRun, hres, hfk, hc, if_pos hs]
          · have hfk : fetchKeyFiles env nodes =
                (Except.ok (some (decodeBase64 s)), [⟨CallKind.file, u, none⟩]) := by
              simp only [fetchKeyFiles, hfind, hurl, hf, hc, if_neg hu, if_neg hs]
            simp only [getRepoContent, getRepoContentRun, hres, hfk, hc, if_neg hs]

/-- Witness for C2 (amended) on the environment whose key-file fetch
returns a non-ok status: the call succeeds with the filtered tree and no
package.json content. -/
theorem claim2_witness : (getRepoContent inpW envFileNotOk).1 = ⟨fileTreeOf nodesOk, none⟩ := by
  have h := claim2_fetch_outcomes inpW envFileNotOk ⟨"main"⟩ "sha1" nodesOk
    ⟨"package.json", some "u1"⟩ "u1" rfl rfl rfl rfl rfl (by decide)
  simpa using h

/-- C3 counterexample: with the repository lookup returning non-ok, the
claim says a descriptive failure propagates to the caller; the code instead
catches its internal error and returns the ordinary sentinel value (while,
as claimed, issuing no further outbound calls). -/
theorem claim3_counterexample :
    (getRepoContent inpW envNotFound).1 = errorSentinel ∧
    (getRepoContent inpW envNotFound).2 = [⟨CallKind.repo, repoUrl inpW, none⟩] := by decide

/-- C3 amended: if the initial repository-metadata lookup does not succeed
(non-ok status, malformed body, or rejected fetch), `getRepoContent` issues
zero further outbound calls — but instead of propagating a descriptive
RepositoryNotFound-class failure, it returns the sentinel result normally
(the internal thrown error is caught and swallowed). -/
theorem claim3_lookup_failure (inp : RepoContentInput) (env : Env)
    (h : env.repoResp = FetchResult.notOk ∨ env.repoResp = FetchResult.okMalformed ∨
         ∃ m, env.repoResp = FetchResult.throwErr m) :
    getRepoContent inp env = (errorSentinel, [⟨CallKind.repo, repoUrl inp, none⟩]) := by
  rcases h with h | h | ⟨m, h⟩ <;>
    simp only [getRepoContent, getRepoContentRun, resolveTree, h]

/-- Witness for C3 (amended) at the not-found environment. -/
theorem claim3_witness :
    getRepoContent inpW envNotFound = (errorSentinel, [⟨CallKind.repo, repoUrl inpW, none⟩]) :=
  claim3_lookup_failure inpW envNotFound (Or.inl rfl)

/-- C4: whenever the result of `getRepoContent` carries fetched key-file
content, that file's path (`package.json`) is a member of the fixed
key-file pattern set and also appears in the returned `tree`. -/
theorem claim4_files_subset (inp : RepoContentInput) (env : Env) (c : List Nat)
    (h : (getRepoContent inp env).1.packageJson = some c) :
    "package.json" ∈ keyFilePatterns ∧ "package.json" ∈ (getRepoContent inp env).1.tree := by
  refine ⟨by simp [keyFilePatterns], ?_⟩
  rcases hrun : getRepoContentRun inp env with ⟨res, cs⟩
  cases res with
  | error m =>
      rw [getRepoContent_of_run_error inp env m cs hrun] at h
      simp [errorSentinel] at h
  | ok o =>
      rw [getRepoContent_of_run_ok inp env o cs hrun] at h ⊢
      obtain ⟨nodes, cs1, pkg, cs2, hres, hfk, ho, -⟩ := run_ok_elim inp env o cs hrun
      subst ho
      have hpkg : pkg = some c := h
      obtain ⟨node, hfind⟩ := fetchKeyFiles_some_find env nodes c (by rw [hfk, hpkg])
      have hpath : node.path = "package.json" := by
        simpa using List.find?_some hfind
      have hmem : node ∈ nodes := List.mem_of_find?_eq_some hfind
      show "package.json" ∈ fileTreeOf nodes
      unfold fileTreeOf
      refine List.mem_filter.mpr ⟨List.mem_map.mpr ⟨node, hmem, hpath⟩, by decide⟩

/-- Witness for C4 on the all-success environment. -/
theorem claim4_witness :
    "package.json" ∈ keyFilePatterns ∧ "package.json" ∈ (getRepoContent inpW envOk).1.tree :=
  claim4_files_subset inpW envOk [104, 105] (by decide)

theorem run_trace_mem (inp : RepoContentInput) (env : Env) (c : Call)
    (hc : c ∈ (getRepoContentRun inp env).2) :
    c ∈ (resolveTree inp env).2 ∨ ∃ nodes, c ∈ (fetchKeyFiles env nodes).2 := by
  rcases hres : resolveTree inp env with ⟨res, cs1⟩
  cases res with
  | error m =>
      simp only [getRepoContentRun, hres] at hc
      exact Or.inl hc
  | ok nodes =>
      rcases hfk : fetchKeyFiles env nodes with ⟨res2, cs2⟩
      cases res2 <;>
        simp only [getRepoContentRun, hres, hfk] at hc <;>
        rcases List.mem_append.mp hc with h | h
      · exact Or.inl h
      · exact Or.inr ⟨nodes, by rw [hfk]; exact h⟩
      · exact Or.inl h
      · exact Or.inr ⟨nodes, by rw [hfk]; exact h⟩

/-- C7 counterexample: on an invocation where an authentication credential
is available (`envTok.token` is set), the code still issues its outbound
calls with no Authorization header at all — the claim that the bearer
credential is attached to every call fails on every issued call. -/
theorem claim7_counterexample :
    envTok.token = some "tok" ∧
    (getRepoContent inpW envTok).2 ≠ [] ∧
    noAuthHeaders (getRepoContent inpW envTok).2 = true := by decide

/-- C7 amended: no authentication credential is ever attached: every
outbound call issued by `getRepoContent` carries no Authorization header,
whether or not a credential is available (the source calls `fetch(url)`
with no init object). -/
theorem claim7_no_auth_header (inp : RepoContentInput) (env : Env) :
    noAuthHeaders (getRepoContent inp env).2 = true := by
  unfold noAuthHeaders
  refine List.all_eq_true.mpr (fun c hc => ?_)
  rw [getRepoContent_trace] at hc
  rcases run_trace_mem inp env c hc with h | ⟨nodes, h⟩
  · have := (resolveTree_calls inp env c h).1
    simp [this]
  · rcases fetchKeyFiles_trace env nodes with ht | ⟨u, ht⟩
    · rw [ht] at h; simp at h
    · rw [ht] at h
      simp only [List.mem_singleton] at h
      subst h
      rfl

/-- C8 counterexample: on a resolved tree with two pattern-matched blob
nodes the claim implies two concurrent per-file fetches; the code issues
exactly one content fetch (`find` takes only the first match). -/
theorem claim8_counterexample :
    matchedNodeCount nodesTwoPkg = 2 ∧ fileFetchCount inpW envTwoPkg = 1 := by decide

/-- C8 amended: the fetch stage performs no fan-out at all: at most one
per-file content fetch is issued per invocation (for the first listed node
whose path is `package.json` and whose url is truthy), awaited
sequentially. -/
theorem claim8_at_most_one_file_fetch (inp : RepoContentInput) (env : Env) :
    fileFetchCount inp env ≤ 1 := by
  unfold fileFetchCount
  rw [getRepoContent_trace]
  rcases hres : resolveTree inp env with ⟨res, cs1⟩
  have hcs1 : cs1.filter (fun c => c.kind == CallKind.file) = [] := by
    refine List.filter_eq_nil_iff.mpr (fun c hcmem => ?_)
    have := (resolveTree_calls inp env c (by rw [hres]; exact hcmem)).2
    simpa using this
  cases res with
  | error m =>
      simp only [getRepoContentRun, hres, hcs1, List.length_nil]
      omega
  | ok nodes =>
      rcases hfk : fetchKeyFiles env nodes with ⟨res2, cs2⟩
      have hlen2 : (cs2.filter (fun c => c.kind == CallKind.file)).length ≤ 1 := by
        rcases fetchKeyFiles_trace env nodes with ht | ⟨u, ht⟩
        · rw [hfk] at ht
          simp only at ht
          subst ht
          simp
        · rw [hfk] at ht
          simp only at ht
          subst ht
          calc (List.filter (fun c => c.kind == CallKind.file)
                  [(⟨CallKind.file, u, none⟩ : Call)]).length
              ≤ [(⟨CallKind.file, u, none⟩ : Call)].length :=
                List.length_filter_le _ _
            _ = 1 := rfl
      cases res2 <;>
        simp only [getRepoContentRun, hres, hfk, List.filter_append, hcs1,
          List.nil_append] <;>
        exact hlen2

end RepoRefine
